import Mathlib

/-!
Shallow embedding of the PropFlow prop-firm selection lifecycle
(src/components/prop-firm-settings.tsx) and of the pieces of the
context provider that the component consumes.  Plan values are
modelled as `Option String` because the source reads `user?.plan`,
which may be `undefined` or an arbitrary string.
-/

namespace PropFlow

/-- A tracked prop-firm record, matching the data model used by the
component (`id`, `name`, `description`, `isSelected`, `isCustom`,
`matchKeyword`). -/
structure PropFirm where
  id : String
  name : String
  description : String
  isSelected : Bool
  isCustom : Bool
  matchKeyword : String
  deriving DecidableEq, Repr

/-- The two parallel copies of the selection set: the working
`pending` list rendered by the component and the last-saved
`committed` list held by the context provider. -/
structure FirmState where
  pending : List PropFirm
  committed : List PropFirm
  deriving DecidableEq, Repr

/-- The JS object lookup `planLevels[p]` from `isFeatureAvailable`
(source lines 32-35): `starter ↦ 0`, `standard ↦ 1`, `premium ↦ 2`,
any other key yields `undefined`, modelled as `none`. -/
def planLevels (p : String) : Option Nat :=
  if p = "starter" then some 0
  else if p = "standard" then some 1
  else if p = "premium" then some 2
  else none

/-- `isFeatureAvailable` from source lines 32-35:
`planLevels[user?.plan] >= planLevels[requiredPlan]`.  In JS a `>=`
comparison with `undefined` on either side is `false`, which the
`match` reproduces. -/
def isFeatureAvailable (userPlan : Option String) (requiredPlan : String) : Bool :=
  match userPlan.bind planLevels, planLevels requiredPlan with
  | some a, some b => decide (b ≤ a)
  | _, _ => false

/-- `selectedCount` from source lines 27-29: the number of firms in
the pending list whose `isSelected` flag is true. -/
def selectedCount (pending : List PropFirm) : Nat :=
  (pending.filter (fun f => f.isSelected)).length

/-- `hasReachedLimit` from source lines 38-42: starter caps at 1,
standard at 3, every other plan value (premium included) never
reaches a limit. -/
def hasReachedLimit (userPlan : Option String) (count : Nat) : Bool :=
  if userPlan = some "starter" then decide (1 ≤ count)
  else if userPlan = some "standard" then decide (3 ≤ count)
  else false

/-- The selection-capacity table of the spec data model:
`starter ↦ 1`, `standard ↦ 3`, `premium ↦ unbounded` (`none`). -/
def capacity (userPlan : Option String) : Option Nat :=
  if userPlan = some "starter" then some 1
  else if userPlan = some "standard" then some 3
  else none

/-- Modelled from the spec: `togglePropFirm` lives in the context
provider (`@/components/prop-firm-context`), which is not part of the
excerpt; per the spec it flips `isSelected` for the entity with the
given id in `pending` only. -/
def togglePropFirm (id : String) (l : List PropFirm) : List PropFirm :=
  l.map (fun f => if f.id = id then { f with isSelected := !f.isSelected } else f)

/-- Discriminated outcome of a toggle call: either the capacity
warning toast (no state change) or a forwarded `togglePropFirm`. -/
inductive ToggleOutcome where
  | capacityExceeded
  | toggled
  deriving DecidableEq, Repr

/-- `handleToggle` from source lines 45-61: when the entity is not
currently selected and the plan limit is reached, show the warning
and return without calling `togglePropFirm`; otherwise forward to
`togglePropFirm`, which updates `pending` only. -/
def handleToggle (userPlan : Option String) (s : FirmState) (id : String)
    (isCurrentlySelected : Bool) : ToggleOutcome × FirmState :=
  if !isCurrentlySelected && hasReachedLimit userPlan (selectedCount s.pending) then
    (ToggleOutcome.capacityExceeded, s)
  else
    (ToggleOutcome.toggled, { s with pending := togglePropFirm id s.pending })

/-- The `isSelected` flag the rendering layer passes to
`handleToggle` (source line 158 passes `firm.isSelected` for the firm
with the clicked id); `false` when no such firm exists. -/
def currentFlag (l : List PropFirm) (id : String) : Bool :=
  ((l.find? (fun f => f.id == id)).map PropFirm.isSelected).getD false

/-- One UI toggle on the firm with the given id, passing the firm's
current flag exactly as the checkbox callback does. -/
def uiToggle (userPlan : Option String) (s : FirmState) (id : String) : FirmState :=
  (handleToggle userPlan s id (currentFlag s.pending id)).2

/-- A sequence of UI toggles, applied left to right. -/
def runToggles (userPlan : Option String) (s : FirmState) (ids : List String) : FirmState :=
  ids.foldl (uiToggle userPlan) s

/-- Discriminated outcome of an add-custom-firm call. -/
inductive AddOutcome where
  | validationError
  | planRestricted
  | added
  deriving DecidableEq, Repr

/-- Modelled from the spec: `addCustomPropFirm` lives in the context
provider, not in the excerpt; per the spec it appends a new entity to
`pending` with a freshly generated unique id, `isCustom = true` and
`isSelected` defaulted to `false`. -/
def addCustomPropFirm (newId : String) (name keyword : String)
    (l : List PropFirm) : List PropFirm :=
  l ++ [⟨newId, name, "", false, true, keyword⟩]

/-- Executable model of the JS `String.prototype.trim` used at source
lines 89 and 224: whitespace stripped from both ends, computed over
the character list so the kernel can evaluate it. -/
def jsTrim (str : String) : String :=
  String.mk
    (((str.toList.dropWhile Char.isWhitespace).reverse.dropWhile
        Char.isWhitespace).reverse)

/-- `handleAddCustomFirm` from source lines 88-128: first the
validation guard (either field empty after trimming), then the
premium feature gate, then the forwarded `addCustomPropFirm`. -/
def handleAddCustomFirm (userPlan : Option String) (newId : String)
    (newFirmName newFirmKeyword : String) (s : FirmState) : AddOutcome × FirmState :=
  if jsTrim newFirmName = "" ∨ jsTrim newFirmKeyword = "" then
    (AddOutcome.validationError, s)
  else if !(isFeatureAvailable userPlan "premium") then
    (AddOutcome.planRestricted, s)
  else
    (AddOutcome.added,
      { s with pending := addCustomPropFirm newId newFirmName newFirmKeyword s.pending })

/-- Discriminated outcome of a save call: the success toast or the
destructive error toast shown by the `catch` branch. -/
inductive SaveOutcome where
  | successToast
  | errorToast
  deriving DecidableEq, Repr

/-- Modelled from the spec: `savePreferences` lives in the context
provider, not in the excerpt; per the spec it atomically replaces
`committed` with a copy of `pending` when the external persistence
collaborator (modelled by the `commitOk` oracle) accepts the write,
and leaves both `pending` and `committed` unchanged when it rejects. -/
def savePreferences (commitOk : Bool) (s : FirmState) : Except Unit FirmState :=
  if commitOk then Except.ok ⟨s.pending, s.pending⟩ else Except.error ()

/-- `handleSavePreferences` from source lines 63-86: the `try` branch
shows the success toast, the `catch` branch shows the error toast and
performs no state mutation of its own. -/
def handleSavePreferences (commitOk : Bool) (s : FirmState) : SaveOutcome × FirmState :=
  match savePreferences commitOk s with
  | Except.ok s2 => (SaveOutcome.successToast, s2)
  | Except.error _ => (SaveOutcome.errorToast, s)

/-- Modelled from the spec: `hasPendingChanges` is provided by the
context, not in the excerpt; per the spec it is recomputed from the
two sets and holds exactly when `pending` is not structurally equal
to `committed`. -/
def hasPendingChanges (s : FirmState) : Bool :=
  !(decide (s.pending = s.committed))

/-- The closed plan-tier enumeration of the spec, with the ordinals
`starter = 0`, `standard = 1`, `premium = 2`. -/
inductive PlanTier where
  | starter
  | standard
  | premium
  deriving DecidableEq, Repr

/-- Ordinal of a plan tier under the spec's total order. -/
def PlanTier.ordinal : PlanTier → Nat
  | PlanTier.starter => 0
  | PlanTier.standard => 1
  | PlanTier.premium => 2

/-- The string the source uses for each plan tier. -/
def PlanTier.tierName : PlanTier → String
  | PlanTier.starter => "starter"
  | PlanTier.standard => "standard"
  | PlanTier.premium => "premium"

/-- A catalog firm that is currently selected. -/
def firmA : PropFirm := ⟨"A", "Alpha Funding", "catalog", true, false, "ALPHA"⟩

/-- A catalog firm that is currently unselected. -/
def firmB : PropFirm := ⟨"B", "Beta Capital", "catalog", false, false, "BETA"⟩

/-- A small concrete state used by the witnesses. -/
def sampleState : FirmState := ⟨[firmA, firmB], [firmA, firmB]⟩

theorem togglePropFirm_cons (id : String) (f : PropFirm) (t : List PropFirm) :
    togglePropFirm id (f :: t) =
      (if f.id = id then { f with isSelected := !f.isSelected } else f) ::
        togglePropFirm id t := rfl

theorem selectedCount_cons (f : PropFirm) (l : List PropFirm) :
    selectedCount (f :: l) = (if f.isSelected then 1 else 0) + selectedCount l := by
  unfold selectedCount
  rw [List.filter_cons]
  cases hf : f.isSelected <;> simp [Nat.add_comm]

/-- Toggling never changes the sequence of ids of the pending list. -/
theorem togglePropFirm_id_map (id : String) (l : List PropFirm) :
    (togglePropFirm id l).map PropFirm.id = l.map PropFirm.id := by
  induction l with
  | nil => rfl
  | cons f t ih =>
    rw [togglePropFirm_cons, List.map_cons, List.map_cons, ih]
    by_cases hf : f.id = id
    · rw [if_pos hf]
    · rw [if_neg hf]

/-- Toggling an id that does not occur in the list is a no-op. -/
theorem togglePropFirm_not_mem (id : String) (l : List PropFirm)
    (h : id ∉ l.map PropFirm.id) : togglePropFirm id l = l := by
  induction l with
  | nil => rfl
  | cons f t ih =>
    rw [List.map_cons, List.mem_cons] at h
    push_neg at h
    rw [togglePropFirm_cons, if_neg (fun e => h.1 e.symm), ih h.2]

theorem currentFlag_cons (id : String) (f : PropFirm) (t : List PropFirm) :
    currentFlag (f :: t) id =
      if f.id == id then f.isSelected else currentFlag t id := by
  cases hf : (f.id == id) with
  | true => simp [currentFlag, List.find?_cons, hf]
  | false => simp [currentFlag, List.find?_cons, hf]

/-- A toggle raises the selected count by at most one when ids are
unique. -/
theorem selectedCount_toggle_le (id : String) (l : List PropFirm)
    (hnd : (l.map PropFirm.id).Nodup) :
    selectedCount (togglePropFirm id l) ≤ selectedCount l + 1 := by
  induction l with
  | nil => exact Nat.zero_le 1
  | cons f t ih =>
    rw [List.map_cons, List.nodup_cons] at hnd
    by_cases hf : f.id = id
    · rw [togglePropFirm_cons, if_pos hf,
        togglePropFirm_not_mem id t (hf ▸ hnd.1),
        selectedCount_cons, selectedCount_cons]
      cases hb : f.isSelected <;> simp <;> omega
    · rw [togglePropFirm_cons, if_neg hf, selectedCount_cons, selectedCount_cons]
      have := ih hnd.2
      omega

/-- Toggling a firm whose current flag is true cannot raise the
selected count when ids are unique. -/
theorem selectedCount_toggle_of_selected (id : String) (l : List PropFirm)
    (hnd : (l.map PropFirm.id).Nodup) (hcf : currentFlag l id = true) :
    selectedCount (togglePropFirm id l) ≤ selectedCount l := by
  induction l with
  | nil => simp [currentFlag, List.find?] at hcf
  | cons f t ih =>
    rw [List.map_cons, List.nodup_cons] at hnd
    rw [currentFlag_cons] at hcf
    by_cases hf : (f.id == id) = true
    · rw [if_pos hf] at hcf
      have hfid : f.id = id := by simpa using hf
      rw [togglePropFirm_cons, if_pos hfid,
        togglePropFirm_not_mem id t (hfid ▸ hnd.1),
        selectedCount_cons, selectedCount_cons]
      simp [hcf]
    · rw [if_neg hf] at hcf
      have hfid : ¬ f.id = id := by simpa using hf
      rw [togglePropFirm_cons, if_neg hfid, selectedCount_cons, selectedCount_cons]
      have := ih hnd.2 hcf
      omega

/-- Toggling a present firm whose flag is false raises the selected
count by exactly one when ids are unique. -/
theorem selectedCount_toggle_of_unselected (id : String) (l : List PropFirm)
    (e : PropFirm) (hnd : (l.map PropFirm.id).Nodup)
    (hfind : l.find? (fun f => f.id == id) = some e)
    (hsel : e.isSelected = false) :
    selectedCount (togglePropFirm id l) = selectedCount l + 1 := by
  induction l with
  | nil => simp [List.find?] at hfind
  | cons f t ih =>
    rw [List.map_cons, List.nodup_cons] at hnd
    by_cases hf : (f.id == id) = true
    · have hfid : f.id = id := by simpa using hf
      rw [show List.find? (fun g => g.id == id) (f :: t) = some f from by
        simp [List.find?_cons, hf]] at hfind
      have hfe : f = e := Option.some.inj hfind
      rw [togglePropFirm_cons, if_pos hfid,
        togglePropFirm_not_mem id t (hfid ▸ hnd.1),
        selectedCount_cons, selectedCount_cons, hfe, hsel]
      simp [Nat.add_comm]
    · have hfb : (f.id == id) = false := by simpa using hf
      rw [show List.find? (fun g => g.id == id) (f :: t) =
          List.find? (fun g => g.id == id) t from by
        simp [List.find?_cons, hfb]] at hfind
      have hfid : ¬ f.id = id := by simpa using hf
      rw [togglePropFirm_cons, if_neg hfid, selectedCount_cons, selectedCount_cons]
      have := ih hnd.2 hfind
      omega

/-- Position by position, a toggle changes exactly the entries whose
id matches the toggled id. -/
theorem toggle_zip_countP (id : String) (l : List PropFirm) :
    ((togglePropFirm id l).zip l).countP (fun q => decide (¬ q.1 = q.2)) =
      l.countP (fun f => f.id == id) := by
  induction l with
  | nil => rfl
  | cons f t ih =>
    rw [togglePropFirm_cons, List.zip_cons_cons, List.countP_cons, List.countP_cons, ih]
    by_cases hf : f.id = id
    · have hb : (f.id == id) = true := by simp [hf]
      rw [if_pos hf, hb]
      have hne : ¬ ({ f with isSelected := !f.isSelected } = f) := by
        intro he
        have hbb : (!f.isSelected) = f.isSelected := congrArg PropFirm.isSelected he
        cases hfb : f.isSelected <;> rw [hfb] at hbb <;> simp at hbb
      simp [hne]
    · rw [if_neg hf]
      simp [hf]

/-- `hasReachedLimit` holds exactly when the selected count has
reached the tier's capacity, for tiers with a finite capacity. -/
theorem hasReachedLimit_iff_capacity (p : Option String) (cap c : Nat)
    (hcap : capacity p = some cap) :
    hasReachedLimit p c = true ↔ cap ≤ c := by
  unfold capacity at hcap
  by_cases h1 : p = some "starter"
  · rw [if_pos h1] at hcap
    obtain rfl : (1 : Nat) = cap := Option.some.inj hcap
    simp [hasReachedLimit, h1]
  · rw [if_neg h1] at hcap
    by_cases h2 : p = some "standard"
    · rw [if_pos h2] at hcap
      obtain rfl : (3 : Nat) = cap := Option.some.inj hcap
      simp [hasReachedLimit, h1, h2]
    · rw [if_neg h2] at hcap
      exact absurd hcap (by simp)

/-- A single UI toggle preserves uniqueness of ids and the capacity
bound on the selected count. -/
theorem uiToggle_preserves (p : Option String) (cap : Nat)
    (hcap : capacity p = some cap) (s : FirmState) (id : String)
    (hnd : (s.pending.map PropFirm.id).Nodup)
    (hle : selectedCount s.pending ≤ cap) :
    ((uiToggle p s id).pending.map PropFirm.id).Nodup ∧
      selectedCount (uiToggle p s id).pending ≤ cap := by
  unfold uiToggle handleToggle
  by_cases hc :
      (!(currentFlag s.pending id) &&
        hasReachedLimit p (selectedCount s.pending)) = true
  · rw [if_pos hc]
    exact ⟨hnd, hle⟩
  · rw [if_neg hc]
    refine ⟨by simpa [togglePropFirm_id_map] using hnd, ?_⟩
    show selectedCount (togglePropFirm id s.pending) ≤ cap
    cases hcf : currentFlag s.pending id with
    | true =>
      exact le_trans (selectedCount_toggle_of_selected id s.pending hnd hcf) hle
    | false =>
      rw [hcf] at hc
      simp only [Bool.not_false, Bool.true_and] at hc
      have hlt : ¬ cap ≤ selectedCount s.pending := by
        intro hge
        exact hc ((hasReachedLimit_iff_capacity p cap _ hcap).mpr hge)
      have := selectedCount_toggle_le id s.pending hnd
      omega

theorem runToggles_cons (p : Option String) (s : FirmState) (id : String)
    (ids : List String) :
    runToggles p s (id :: ids) = runToggles p (uiToggle p s id) ids := rfl

/-- The capacity bound is an inductive invariant of arbitrary toggle
sequences. -/
theorem runToggles_invariant (p : Option String) (cap : Nat)
    (hcap : capacity p = some cap) (s : FirmState) (ids : List String)
    (hnd : (s.pending.map PropFirm.id).Nodup)
    (hle : selectedCount s.pending ≤ cap) :
    selectedCount (runToggles p s ids).pending ≤ cap := by
  induction ids generalizing s with
  | nil => exact hle
  | cons id rest ih =>
    rw [runToggles_cons]
    have h := uiToggle_preserves p cap hcap s id hnd hle
    exact ih (uiToggle p s id) h.1 h.2

/-- C5: the selection capacity derived from the plan tier is 1 for
starter, 3 for standard and unbounded for premium: `hasReachedLimit`
holds for starter exactly when the selected count is at least 1, for
standard exactly when it is at least 3, and never for premium. -/
theorem hasReachedLimit_capacity_values (c : Nat) :
    capacity (some "starter") = some 1 ∧
    capacity (some "standard") = some 3 ∧
    capacity (some "premium") = none ∧
    (hasReachedLimit (some "starter") c = true ↔ 1 ≤ c) ∧
    (hasReachedLimit (some "standard") c = true ↔ 3 ≤ c) ∧
    hasReachedLimit (some "premium") c = false := by
  refine ⟨rfl, rfl, rfl, ?_, ?_, ?_⟩ <;> simp [hasReachedLimit]

/-- Witness for C5 at selected count 1 under the starter tier. -/
theorem hasReachedLimit_capacity_values_witness :
    hasReachedLimit (some "starter") 1 = true :=
  (hasReachedLimit_capacity_values 1).2.2.2.1.mpr (by decide)

/-- C6: for every pair of valid tiers, `isFeatureAvailable` returns
true exactly when the ordinal of the current tier is at least the
ordinal of the required tier, under starter = 0, standard = 1,
premium = 2. -/
theorem isFeatureAvailable_ordinal (t r : PlanTier) :
    isFeatureAvailable (some t.tierName) r.tierName =
      decide (PlanTier.ordinal r ≤ PlanTier.ordinal t) := by
  cases t <;> cases r <;> rfl

/-- C7: whenever the name or the keyword is empty after trimming,
`handleAddCustomFirm` reports the validation error and returns the
state unchanged — `addCustomPropFirm` is never reached. -/
theorem add_empty_input_validation (p : Option String) (newId name keyword : String)
    (s : FirmState) (h : jsTrim name = "" ∨ jsTrim keyword = "") :
    handleAddCustomFirm p newId name keyword s = (AddOutcome.validationError, s) := by
  unfold handleAddCustomFirm
  rw [if_pos h]

/-- Witness for C7: a whitespace-only name under the premium tier is
rejected with the validation error. -/
theorem add_empty_input_validation_witness :
    handleAddCustomFirm (some "premium") "C" "  " "KW" sampleState =
      (AddOutcome.validationError, sampleState) :=
  add_empty_input_validation (some "premium") "C" "  " "KW" sampleState
    (Or.inl (by decide))

/-- Counterexample for C2: under the standard tier with an empty name
the component reports the validation error, not the plan restriction,
because the validation guard runs before the feature gate. -/
theorem add_standard_empty_name_counterexample :
    (handleAddCustomFirm (some "standard") "C" "" "KW" sampleState).1 =
        AddOutcome.validationError ∧
    (handleAddCustomFirm (some "standard") "C" "" "KW" sampleState).1 ≠
        AddOutcome.planRestricted := by
  constructor
  · decide
  · decide

/-- C2 (amended): under the standard tier `handleAddCustomFirm` never
mutates the state; it reports the plan restriction whenever both
inputs are non-empty after trimming, and the validation error when
either input is empty after trimming. -/
theorem add_standard_gating (newId name keyword : String) (s : FirmState) :
    (handleAddCustomFirm (some "standard") newId name keyword s).2 = s ∧
    (¬ jsTrim name = "" → ¬ jsTrim keyword = "" →
      (handleAddCustomFirm (some "standard") newId name keyword s).1 =
        AddOutcome.planRestricted) ∧
    (jsTrim name = "" ∨ jsTrim keyword = "" →
      (handleAddCustomFirm (some "standard") newId name keyword s).1 =
        AddOutcome.validationError) := by
  unfold handleAddCustomFirm
  by_cases h : jsTrim name = "" ∨ jsTrim keyword = ""
  · rw [if_pos h]
    exact ⟨rfl, fun h1 h2 => absurd h (by tauto), fun _ => rfl⟩
  · rw [if_neg h]
    have hf : isFeatureAvailable (some "standard") "premium" = false := rfl
    rw [hf]
    exact ⟨rfl, fun _ _ => rfl, fun hh => absurd hh h⟩

/-- Witness for C2 (amended): valid inputs under the standard tier
yield the plan restriction and an unchanged state. -/
theorem add_standard_gating_witness :
    (handleAddCustomFirm (some "standard") "C" "Acme" "ACME" sampleState).1 =
        AddOutcome.planRestricted ∧
    (handleAddCustomFirm (some "standard") "C" "Acme" "ACME" sampleState).2 =
        sampleState :=
  ⟨(add_standard_gating "C" "Acme" "ACME" sampleState).2.1 (by decide) (by decide),
   (add_standard_gating "C" "Acme" "ACME" sampleState).1⟩

/-- C8: when the persistence collaborator rejects the write, the save
handler reports the failure through the error toast outcome (the
`catch` branch, never an uncaught fault) and leaves the state — in
particular `pending` — unchanged, so retrying the same call after the
collaborator recovers commits exactly the preserved pending list. -/
theorem save_failure_recoverable (s : FirmState) :
    handleSavePreferences false s = (SaveOutcome.errorToast, s) ∧
    handleSavePreferences true s = (SaveOutcome.successToast, ⟨s.pending, s.pending⟩) :=
  ⟨rfl, rfl⟩

/-- C9: `hasPendingChanges` is true exactly when the pending list is
not structurally equal to the committed list, equivalently it is
false exactly when the two lists agree position by position. -/
theorem hasPendingChanges_iff (s : FirmState) :
    (hasPendingChanges s = true ↔ ¬ s.pending = s.committed) ∧
    (hasPendingChanges s = false ↔
      ∀ i : Nat, s.pending[i]? = s.committed[i]?) := by
  constructor
  · simp [hasPendingChanges]
  · simp only [hasPendingChanges, Bool.not_eq_false', decide_eq_true_eq]
    constructor
    · intro h i
      rw [h]
    · intro h
      exact List.ext_getElem? h

/-- Witness for C9: a state whose pending list gained a firm is
reported as dirty. -/
theorem hasPendingChanges_iff_witness :
    hasPendingChanges ⟨[firmA], []⟩ = true :=
  (hasPendingChanges_iff ⟨[firmA], []⟩).1.mpr (by decide)

/-- C10: with a missing or unrecognized plan the two gates degenerate
asymmetrically: `hasReachedLimit` is false for every selected count
(selection unbounded, as for premium) while `isFeatureAvailable` is
false for every required tier (feature blocked), because the failed
`planLevels` lookup makes the JS comparison false. -/
theorem unknown_plan_gates (p : Option String) (c : Nat) (req : String)
    (h : p.bind planLevels = none) :
    hasReachedLimit p c = false ∧ isFeatureAvailable p req = false := by
  constructor
  · have h1 : p ≠ some "starter" := by
      rintro rfl
      simp [planLevels] at h
    have h2 : p ≠ some "standard" := by
      rintro rfl
      simp [planLevels] at h
    simp [hasReachedLimit, h1, h2]
  · unfold isFeatureAvailable
    rw [h]

/-- Witness for C10 at the unrecognized plan value gold. -/
theorem unknown_plan_gates_witness :
    hasReachedLimit (some "gold") 5 = false ∧
    isFeatureAvailable (some "gold") "starter" = false :=
  unknown_plan_gates (some "gold") 5 "starter" (by decide)

/-- C1: for every tier with a finite capacity, a toggle on a firm
whose flag is false is rejected with the capacity warning and leaves
the state untouched whenever the selected count in pending has
reached the capacity; consequently, along any sequence of UI toggles
the selected count in pending never exceeds the capacity. -/
theorem toggle_capacity_invariant (p : Option String) (cap : Nat)
    (hcap : capacity p = some cap) :
    (∀ (s : FirmState) (id : String),
        cap ≤ selectedCount s.pending →
        handleToggle p s id false = (ToggleOutcome.capacityExceeded, s)) ∧
    (∀ (s : FirmState) (ids : List String),
        (s.pending.map PropFirm.id).Nodup →
        selectedCount s.pending ≤ cap →
        selectedCount (runToggles p s ids).pending ≤ cap) := by
  constructor
  · intro s id hge
    unfold handleToggle
    rw [if_pos]
    simp only [Bool.not_false, Bool.true_and]
    exact (hasReachedLimit_iff_capacity p cap _ hcap).mpr hge
  · exact fun s ids hnd hle => runToggles_invariant p cap hcap s ids hnd hle

/-- Witness for C1 under the starter tier: a fourth firm is rejected
at the limit, and an adversarial toggle sequence stays within the
capacity of one. -/
theorem toggle_capacity_invariant_witness :
    handleToggle (some "starter") sampleState "B" false =
        (ToggleOutcome.capacityExceeded, sampleState) ∧
    selectedCount
        (runToggles (some "starter") sampleState ["B", "A", "B", "A"]).pending ≤ 1 :=
  ⟨(toggle_capacity_invariant (some "starter") 1 rfl).1 sampleState "B" (by decide),
   (toggle_capacity_invariant (some "starter") 1 rfl).2 sampleState
     ["B", "A", "B", "A"] (by decide) (by decide)⟩

/-- C3: a UI toggle never modifies the committed list; a toggle on a
currently selected firm always proceeds with no capacity gate; and
the pending list either stays exactly as it was (capacity rejection)
or changes at exactly one position — the firm carrying the toggled
id, whose flag is flipped — when ids are unique. -/
theorem toggle_frame_effect (p : Option String) (s : FirmState) (id : String)
    (hone : s.pending.countP (fun f => f.id == id) = 1) :
    (handleToggle p s id (currentFlag s.pending id)).2.committed = s.committed ∧
    (currentFlag s.pending id = true →
      (handleToggle p s id (currentFlag s.pending id)).1 = ToggleOutcome.toggled) ∧
    (((handleToggle p s id (currentFlag s.pending id)).1 =
          ToggleOutcome.capacityExceeded ∧
        (handleToggle p s id (currentFlag s.pending id)).2 = s) ∨
      ((handleToggle p s id (currentFlag s.pending id)).1 = ToggleOutcome.toggled ∧
        (((handleToggle p s id (currentFlag s.pending id)).2.pending.zip
              s.pending).countP (fun q => decide (¬ q.1 = q.2)) = 1) ∧
        (∀ i : Nat,
          (handleToggle p s id (currentFlag s.pending id)).2.pending[i]? =
            (s.pending[i]?).map
              (fun f =>
                if f.id = id then { f with isSelected := !f.isSelected } else f)))) := by
  unfold handleToggle
  by_cases hc :
      (!(currentFlag s.pending id) &&
        hasReachedLimit p (selectedCount s.pending)) = true
  · rw [if_pos hc]
    refine ⟨rfl, ?_, Or.inl ⟨rfl, rfl⟩⟩
    intro hcf
    rw [hcf] at hc
    simp at hc
  · rw [if_neg hc]
    refine ⟨rfl, fun _ => rfl, Or.inr ⟨rfl, ?_, ?_⟩⟩
    · show ((togglePropFirm id s.pending).zip s.pending).countP
          (fun q => decide (¬ q.1 = q.2)) = 1
      rw [toggle_zip_countP]
      exact hone
    · intro i
      show (togglePropFirm id s.pending)[i]? = _
      unfold togglePropFirm
      exact List.getElem?_map ..

/-- Witness for C3: toggling the selected firm A under the premium
tier proceeds and leaves the committed list untouched. -/
theorem toggle_frame_effect_witness :
    (handleToggle (some "premium") sampleState "A"
        (currentFlag sampleState.pending "A")).2.committed = sampleState.committed ∧
    (handleToggle (some "premium") sampleState "A"
        (currentFlag sampleState.pending "A")).1 = ToggleOutcome.toggled := by
  have h := toggle_frame_effect (some "premium") sampleState "A" (by decide)
  exact ⟨h.1, h.2.1 (by decide)⟩

/-- C4: the capacity gate of a toggle is computed from the current
pending list — the outcome and the resulting pending list are
independent of the committed list, rejection happens exactly when the
flag is false and `hasReachedLimit` holds of the selected count of
pending, and an accepted selection immediately raises that count by
one, so successive toggles in one session compound without a save. -/
theorem capacity_checked_against_pending (p : Option String) :
    (∀ s1 s2 : FirmState, ∀ (id : String) (cur : Bool),
        s1.pending = s2.pending →
        (handleToggle p s1 id cur).1 = (handleToggle p s2 id cur).1 ∧
        (handleToggle p s1 id cur).2.pending = (handleToggle p s2 id cur).2.pending) ∧
    (∀ (s : FirmState) (id : String) (cur : Bool),
        (handleToggle p s id cur).1 = ToggleOutcome.capacityExceeded ↔
          (cur = false ∧
            hasReachedLimit p (selectedCount s.pending) = true)) ∧
    (∀ (s : FirmState) (id : String) (e : PropFirm),
        (s.pending.map PropFirm.id).Nodup →
        s.pending.find? (fun f => f.id == id) = some e →
        e.isSelected = false →
        (handleToggle p s id false).1 = ToggleOutcome.toggled →
        selectedCount (handleToggle p s id false).2.pending =
          selectedCount s.pending + 1) := by
  refine ⟨?_, ?_, ?_⟩
  · intro s1 s2 id cur hp
    unfold handleToggle
    rw [hp]
    by_cases hc :
        (!cur && hasReachedLimit p (selectedCount s2.pending)) = true
    · rw [if_pos hc, if_pos hc]
      exact ⟨rfl, hp⟩
    · rw [if_neg hc, if_neg hc]
      exact ⟨rfl, rfl⟩
  · intro s id cur
    unfold handleToggle
    cases cur with
    | false =>
      by_cases hl : hasReachedLimit p (selectedCount s.pending) = true
      · simp only [Bool.not_false, Bool.true_and]
        rw [if_pos hl]
        simp [hl]
      · simp only [Bool.not_false, Bool.true_and]
        rw [if_neg hl]
        simp [hl]
    | true =>
      simp only [Bool.not_true, Bool.false_and, Bool.false_eq_true, if_false]
      simp
  · intro s id e hnd hfind hsel hacc
    unfold handleToggle at hacc ⊢
    simp only [Bool.not_false, Bool.true_and] at hacc ⊢
    by_cases hl : hasReachedLimit p (selectedCount s.pending) = true
    · rw [if_pos hl] at hacc
      simp at hacc
    · rw [if_neg hl]
      show selectedCount (togglePropFirm id s.pending) = selectedCount s.pending + 1
      exact selectedCount_toggle_of_unselected id s.pending e hnd hfind hsel

/-- Witness for C4: under the standard tier, selecting the unselected
firm B proceeds and raises the pending selected count from 1 to 2. -/
theorem capacity_checked_against_pending_witness :
    selectedCount (handleToggle (some "standard") sampleState "B" false).2.pending =
      selectedCount sampleState.pending + 1 :=
  (capacity_checked_against_pending (some "standard")).2.2 sampleState "B" firmB
    (by decide) (by decide) (by decide) (by decide)

end PropFlow
